import Mathlib

/-!
Verification development for the Torah MCP gateway (`our-torah-mcp-`).

The definitions below are a shallow embedding, translated from the server's
TypeScript source (`src/index.ts`, shipped inside `RAILWAY_DEPLOYMENT.md`) and
from the chat UI server (`chat-ui/server.js`).  JavaScript `Map`s are modelled
as insertion-ordered association lists, `Date.now()` as an explicit `Nat`
parameter, and network effects (DNS, HTTP, robots, upstream JSON) as oracle
functions passed to the embedded operations.
-/

/-! ## Basic string machinery (JS semantics) -/

/-- Whitespace characters recognised by the JS `\s` class and `String.trim`
(the rare exotic members of the class are not used by the repository's data). -/
def isJsWs (c : Char) : Bool :=
  c = ' ' || c = '\t' || c = '\n' || c = '\r' || c = '\x0b' || c = '\x0c'

/-- `leadsList p cs` : `p` is an initial segment of `cs`. -/
def leadsList : List Char → List Char → Bool
  | [], _ => true
  | _ :: _, [] => false
  | a :: as, b :: bs => a = b && leadsList as bs

/-- `subList p cs` : `p` occurs contiguously somewhere in `cs`
(JS `String.includes` / an alternation-free regex test). -/
def subList (p : List Char) : List Char → Bool
  | [] => leadsList p []
  | cs@(_ :: rest) => leadsList p cs || subList p rest

/-- JS `s.includes(pat)`. -/
def strContains (s pat : String) : Bool := subList pat.toList s.toList

/-- JS `s.startsWith(pat)`. -/
def strStarts (s pat : String) : Bool := leadsList pat.toList s.toList

/-- Collapse immediate runs of spaces to a single space. -/
def squeezeSpaces : List Char → List Char
  | [] => []
  | [c] => [c]
  | a :: b :: rest =>
    if a = ' ' && b = ' ' then squeezeSpaces (b :: rest)
    else a :: squeezeSpaces (b :: rest)

/-- JS `String.trim` on a character list. -/
def jsTrimList (cs : List Char) : List Char :=
  ((cs.dropWhile isJsWs).reverse.dropWhile isJsWs).reverse

/-- JS `s.trim()`. -/
def jsTrim (s : String) : String := String.mk (jsTrimList s.toList)

/-- Source `normalizeRef`: `ref.replace(/\s+/g, ' ').trim()`. -/
def normalizeRef (s : String) : String :=
  String.mk (jsTrimList (squeezeSpaces (s.toList.map fun c => if isJsWs c then ' ' else c)))

/-- JS regex `/\d/.test s`. -/
def hasDigit (s : String) : Bool := s.toList.any Char.isDigit

/-- JS regex `/:/.test s`. -/
def hasColon (s : String) : Bool := s.toList.any (· = ':')

/-- Source `hasHebrew`: `/[֐-׿]/.test(s)`. -/
def hasHebrew (s : String) : Bool :=
  s.toList.any fun c => 0x590 ≤ c.toNat && c.toNat ≤ 0x5FF

/-- Count occurrences of a character (JS `(s.match(/\?/g) || []).length`). -/
def countChar (s : String) (c : Char) : Nat := s.toList.count c

/-! ## TTL + LRU cache (source `getCache` / `setCache`, `fetchCacheGet` /
`fetchCacheSet`).  A JS `Map` is an insertion-ordered association list whose
head is the oldest (first-inserted) binding; `Map.set` on an existing key
updates in place without changing its position, on a fresh key appends. -/

abbrev JsMap (α : Type) : Type := List (String × α)

def mapGet {α : Type} (m : JsMap α) (k : String) : Option α :=
  (List.find? (fun p => p.1 = k) m).map (·.2)

def mapDelete {α : Type} (m : JsMap α) (k : String) : JsMap α :=
  List.filter (fun p => ¬ p.1 = k) m

def mapHas {α : Type} (m : JsMap α) (k : String) : Bool :=
  List.any m (fun p => p.1 = k)

def mapSet {α : Type} (m : JsMap α) (k : String) (v : α) : JsMap α :=
  if mapHas m k then List.map (fun p => if p.1 = k then (k, v) else p) m
  else m ++ [(k, v)]

def mapSize {α : Type} (m : JsMap α) : Nat := m.length

def mapFirstKey {α : Type} (m : JsMap α) : Option String := m.head?.map (·.1)

structure CacheEntry (α : Type) where
  value : α
  expiresAt : Nat
deriving Repr, DecidableEq

/-- Source `getCache` (shared response cache): returns the hit and the cache
after the purge of an expired entry.  `now` is the value of `Date.now()`. -/
def getCache {α : Type} (now : Nat) (cache : JsMap (CacheEntry α)) (key : String) :
    Option α × JsMap (CacheEntry α) :=
  match mapGet cache key with
  | none => (none, cache)
  | some hit =>
    if hit.expiresAt < now then (none, mapDelete cache key)
    else (some hit.value, cache)

/-- Deletion of the first (oldest) key, as in the source's trim loops
(`const firstKey = cache.keys().next().value; if (firstKey) cache.delete(firstKey)`). -/
def evictOldest {α : Type} (m : JsMap α) : JsMap α :=
  match mapFirstKey m with
  | some fk => mapDelete m fk
  | none => m

/-- Source `setCache` (shared response cache, capacity 500): insert, then a
single `if (cache.size > 500)` trim of the oldest entry. -/
def setCache {α : Type} (now : Nat) (cache : JsMap (CacheEntry α)) (key : String)
    (v : α) (ttlMs : Nat) : JsMap (CacheEntry α) :=
  let c := mapSet cache key { value := v, expiresAt := now + ttlMs }
  if 500 < mapSize c then evictOldest c else c

/-- Web fetch cache entry (source `FetchCacheEntry`; the content fields are
irrelevant to the cache discipline and carried opaquely). -/
structure FetchEntry where
  savedAt : Nat
  payload : Nat
deriving Repr, DecidableEq

/-- Source `fetchCacheGet`: TTL purge, then LRU refresh (delete + re-insert,
which moves the binding to the end of the insertion order). -/
def fetchCacheGet (now ttlMs : Nat) (m : JsMap FetchEntry) (key : String) :
    Option FetchEntry × JsMap FetchEntry :=
  match mapGet m key with
  | none => (none, m)
  | some ent =>
    if ttlMs < now - ent.savedAt then (none, mapDelete m key)
    else (some ent, mapSet (mapDelete m key) key ent)

theorem evictOldest_length_lt {α : Type} (x : String × α) (xs : JsMap α) :
    mapSize (evictOldest (x :: xs)) < mapSize (x :: xs) := by
  have hx : mapDelete (x :: xs) x.1 = List.filter (fun p => ¬ p.1 = x.1) xs := by
    simp [mapDelete, List.filter]
  have hle : (List.filter (fun p => ¬ p.1 = x.1) xs).length ≤ xs.length :=
    List.length_filter_le _ _
  simp only [evictOldest, mapFirstKey, List.head?, Option.map_some', mapSize, hx]
  exact Nat.lt_succ_of_le hle

/-- Source trim loop of `fetchCacheSet`: evict oldest while over capacity. -/
def trimToCap {α : Type} (cap : Nat) (m : JsMap α) : JsMap α :=
  if _h : mapSize m ≤ cap then m
  else
    match m with
    | [] => []
    | x :: xs => trimToCap cap (evictOldest (x :: xs))
termination_by mapSize m
decreasing_by
  exact evictOldest_length_lt x xs

/-- Source `fetchCacheSet`: `if has(key) delete(key); set(key, value);` then
the while-trim to `WEB_CACHE_MAX_ENTRIES`. -/
def fetchCacheSet (cap : Nat) (m : JsMap FetchEntry) (key : String) (v : FetchEntry) :
    JsMap FetchEntry :=
  trimToCap cap (mapSet (mapDelete m key) key v)

theorem trimToCap_le {α : Type} (cap : Nat) (m : JsMap α) :
    mapSize (trimToCap cap m) ≤ cap := by
  unfold trimToCap
  split
  · assumption
  · rename_i h
    match m with
    | [] => simp [mapSize] at h
    | x :: xs =>
      have := evictOldest_length_lt x xs
      exact trimToCap_le cap (evictOldest (x :: xs))
termination_by mapSize m
decreasing_by
  exact evictOldest_length_lt x xs

theorem mapSize_mapSet_le {α : Type} (m : JsMap α) (k : String) (v : α) :
    mapSize (mapSet m k v) ≤ mapSize m + 1 := by
  unfold mapSet
  split
  · simp [mapSize]
  · simp [mapSize]

theorem mapHas_mapDelete_self {α : Type} (m : JsMap α) (k : String) :
    mapHas (mapDelete m k) k = false := by
  induction m with
  | nil => rfl
  | cons x xs ih =>
    by_cases hx : x.1 = k
    · simp only [mapHas, mapDelete] at ih ⊢
      simp [hx, ih]
    · simp only [mapHas, mapDelete] at ih ⊢
      simp [hx, ih]

theorem mapSet_of_not_has {α : Type} (m : JsMap α) (k : String) (v : α)
    (h : mapHas m k = false) : mapSet m k v = m ++ [(k, v)] := by
  unfold mapSet
  rw [h]
  simp

/-- C2: `getCache` never returns an entry past its absolute expiry, and it
purges an expired entry before returning.  Whenever `get` returns a non-empty
value at time `now`, the stored entry satisfies `now ≤ expiresAt`. -/
theorem cache_get_never_past_expiry {α : Type} :
    (∀ (now : Nat) (cache : JsMap (CacheEntry α)) (key : String) (v : α),
      (getCache now cache key).1 = some v →
        ∃ e, mapGet cache key = some e ∧ e.value = v ∧ now ≤ e.expiresAt) ∧
    (∀ (now : Nat) (cache : JsMap (CacheEntry α)) (key : String) (e : CacheEntry α),
      mapGet cache key = some e → e.expiresAt < now →
        getCache now cache key = (none, mapDelete cache key)) := by
  constructor
  · intro now cache key v h
    cases hg : mapGet cache key with
    | none => simp [getCache, hg] at h
    | some e =>
      by_cases hexp : e.expiresAt < now
      · simp [getCache, hg, hexp] at h
      · simp [getCache, hg, hexp] at h
        exact ⟨e, rfl, h, Nat.le_of_not_lt hexp⟩
  · intro now cache key e hg hexp
    simp [getCache, hg, hexp]

/-- Closed witness for `cache_get_never_past_expiry`. -/
theorem cache_get_never_past_expiry_witness :
    (∃ e, mapGet [("k", ({ value := 7, expiresAt := 10 } : CacheEntry Nat))] "k" = some e ∧
      e.value = 7 ∧ 5 ≤ e.expiresAt) ∧
    getCache 20 [("k", ({ value := 7, expiresAt := 10 } : CacheEntry Nat))] "k" =
      (none, []) :=
  ⟨(cache_get_never_past_expiry (α := Nat)).1 5
      [("k", { value := 7, expiresAt := 10 })] "k" 7 (by decide),
   (cache_get_never_past_expiry (α := Nat)).2 20
      [("k", { value := 7, expiresAt := 10 })] "k" { value := 7, expiresAt := 10 }
      (by decide) (by decide)⟩

/-- C3: the shared cache's `setCache` keeps the store within its capacity of
500 whenever it was within capacity before; the fetch cache's `fetchCacheSet`
trims (while-loop) to its capacity unconditionally; and a `fetchCacheGet` hit
re-inserts the entry at the end of the insertion order (strict LRU on read). -/
theorem lru_insert_bounded_and_refresh_on_hit :
    (∀ (α : Type) (now : Nat) (cache : JsMap (CacheEntry α)) (key : String) (v : α)
      (ttl : Nat), mapSize cache ≤ 500 → mapSize (setCache now cache key v ttl) ≤ 500) ∧
    (∀ (cap : Nat) (m : JsMap FetchEntry) (key : String) (v : FetchEntry),
      mapSize (fetchCacheSet cap m key v) ≤ cap) ∧
    (∀ (now ttl : Nat) (m : JsMap FetchEntry) (key : String) (ent : FetchEntry),
      (fetchCacheGet now ttl m key).1 = some ent →
        (fetchCacheGet now ttl m key).2 = mapDelete m key ++ [(key, ent)] ∧
        ((fetchCacheGet now ttl m key).2).getLast? = some (key, ent)) := by
  refine ⟨?_, ?_, ?_⟩
  · intro α now cache key v ttl hle
    unfold setCache
    set c := mapSet cache key { value := v, expiresAt := now + ttl } with hc
    have hcle : mapSize c ≤ 501 :=
      le_trans (mapSize_mapSet_le cache key _) (by omega)
    by_cases hbig : 500 < mapSize c
    · rw [if_pos hbig]
      match hm : c with
      | [] => simp [mapSize] at hbig
      | x :: xs =>
        have := evictOldest_length_lt x xs
        omega
    · rw [if_neg hbig]
      omega
  · intro cap m key v
    exact trimToCap_le cap (mapSet (mapDelete m key) key v)
  · intro now ttl m key ent h
    cases hg : mapGet m key with
    | none => simp [fetchCacheGet, hg] at h
    | some e =>
      by_cases hexp : ttl < now - e.savedAt
      · simp [fetchCacheGet, hg, hexp] at h
      · simp [fetchCacheGet, hg, hexp] at h
        subst h
        have happ : mapSet (mapDelete m key) key e = mapDelete m key ++ [(key, e)] :=
          mapSet_of_not_has _ _ _ (mapHas_mapDelete_self m key)
        simp only [fetchCacheGet, hg, if_neg hexp, happ]
        exact ⟨by simp, List.getLast?_concat _⟩

/-- Closed witness for `lru_insert_bounded_and_refresh_on_hit`. -/
theorem lru_insert_bounded_and_refresh_on_hit_witness :
    mapSize (setCache 0 ([] : JsMap (CacheEntry Nat)) "k" 1 300000) ≤ 500 ∧
    mapSize (fetchCacheSet 3 [] "k" { savedAt := 0, payload := 0 }) ≤ 3 ∧
    ((fetchCacheGet 5 100 [("a", { savedAt := 0, payload := 1 }),
        ("k", { savedAt := 0, payload := 2 })] "k").2).getLast? =
      some ("k", { savedAt := 0, payload := 2 }) :=
  ⟨lru_insert_bounded_and_refresh_on_hit.1 Nat 0 [] "k" 1 300000 (by decide),
   lru_insert_bounded_and_refresh_on_hit.2.1 3 [] "k" { savedAt := 0, payload := 0 },
   (lru_insert_bounded_and_refresh_on_hit.2.2 5 100
      [("a", { savedAt := 0, payload := 1 }), ("k", { savedAt := 0, payload := 2 })]
      "k" { savedAt := 0, payload := 2 } (by decide)).2⟩

/-! ## Upstream corpus client retry policy (source `fetchJsonWithRetry`). -/

/-- Per-attempt timeout hard-coded in `fetchJsonWithRetry`
(`setTimeout(() => controller.abort(), 7000)`). -/
def corpusAttemptTimeoutMs : Nat := 7000

/-- Loop body of `fetchJsonWithRetry`: `outcome n` is the result of attempt
`n` (0-based).  Returns the list of back-off sleeps performed (in order) and
the final result.  On a failed attempt `n` with retries remaining the source
sleeps `backoffMs * 2 ^ n` before the next attempt. -/
def retryLoop {ε α : Type} (outcome : Nat → Except ε α) (backoffMs attempt remaining : Nat) :
    List Nat × Except ε α :=
  match outcome attempt with
  | .ok v => ([], .ok v)
  | .error e =>
    match remaining with
    | 0 => ([], .error e)
    | r + 1 =>
      let rest := retryLoop outcome backoffMs (attempt + 1) r
      (backoffMs * 2 ^ attempt :: rest.1, rest.2)

/-- Source `fetchJsonWithRetry(url, init?, retries = 2, backoffMs = 400)` with
its default arguments, used by every call site of the corpus client,
abstracted over the per-attempt outcome. -/
def fetchJsonWithRetry {ε α : Type} (outcome : Nat → Except ε α) :
    List Nat × Except ε α :=
  retryLoop outcome 400 0 2

theorem retryLoop_sleeps {ε α : Type} (outcome : Nat → Except ε α) (b : Nat) :
    ∀ (r a : Nat), ∃ k, k ≤ r ∧
      (retryLoop outcome b a r).1 = (List.range' a k).map (fun n => b * 2 ^ n) := by
  intro r
  induction r with
  | zero =>
    intro a
    refine ⟨0, Nat.le_refl 0, ?_⟩
    unfold retryLoop
    cases outcome a <;> simp
  | succ r ih =>
    intro a
    unfold retryLoop
    cases outcome a with
    | ok v => exact ⟨0, Nat.zero_le _, by simp⟩
    | error e =>
      obtain ⟨k, hk, hsl⟩ := ih (a + 1)
      refine ⟨k + 1, Nat.succ_le_succ hk, ?_⟩
      simp only [hsl, List.range'_succ, List.map_cons]

/-- C5: every upstream corpus call makes at most 2 retries after the first
attempt (at most 3 attempts in total), the sleep performed after failed
attempt `n` is `400 ms * 2 ^ n` so the back-off sleeps are non-decreasing
across attempts, and each attempt carries the 7 s cancellation timeout. -/
theorem corpus_retry_policy {ε α : Type} (outcome : Nat → Except ε α) :
    ((fetchJsonWithRetry outcome).1).length ≤ 2 ∧
    (fetchJsonWithRetry outcome).1 =
      (List.range ((fetchJsonWithRetry outcome).1).length).map (fun n => 400 * 2 ^ n) ∧
    List.Sorted (· ≤ ·) (fetchJsonWithRetry outcome).1 ∧
    corpusAttemptTimeoutMs = 7000 := by
  obtain ⟨k, hk, hsl⟩ := retryLoop_sleeps outcome 400 2 0
  have hr : (fetchJsonWithRetry outcome).1 = (List.range k).map (fun n => 400 * 2 ^ n) := by
    rw [fetchJsonWithRetry, hsl, (List.range_eq_range' k).symm]
  have hlen : ((fetchJsonWithRetry outcome).1).length = k := by
    rw [hr]; simp
  refine ⟨by rw [hlen]; exact hk, by rw [hlen, hr], ?_, rfl⟩
  rw [hr]
  exact List.Pairwise.map (fun n => 400 * 2 ^ n)
    (fun a b h => Nat.mul_le_mul_left 400 (Nat.pow_le_pow_right (by norm_num) (Nat.le_of_lt h)))
    (List.pairwise_lt_range k)

/-! ## Web search multiplexer (source web `search` tool). -/

/-- A parsed URL (`new URL(...)`): the fields the safety pipeline inspects.
`protocol` carries the trailing colon as in the WHATWG API (e.g. `"https:"`). -/
structure Url where
  protocol : String
  host : String
  pathname : String
  username : String
  password : String
deriving Repr, DecidableEq

def urlOrigin (u : Url) : String := u.protocol ++ "//" ++ u.host

def urlToString (u : Url) : String := urlOrigin u ++ u.pathname

/-- Source de-duplication key: `u.origin + u.pathname` ("rough canonicalization"). -/
def dedupKey (u : Url) : String := urlOrigin u ++ u.pathname

/-- `WEB_ALLOWLIST` / `WEB_BLOCKLIST` (JS `Set`s of hostnames). -/
structure WebConfig where
  allowlist : List String
  blocklist : List String
deriving Repr, DecidableEq

/-- Source `isBlockedHost`: `WEB_BLOCKLIST.size > 0 && WEB_BLOCKLIST.has(host)`. -/
def isBlockedHost (cfg : WebConfig) (host : String) : Bool :=
  !cfg.blocklist.isEmpty && cfg.blocklist.contains host

/-- Source `isAllowedHost`: `WEB_ALLOWLIST.size === 0 || WEB_ALLOWLIST.has(host)`. -/
def isAllowedHost (cfg : WebConfig) (host : String) : Bool :=
  cfg.allowlist.isEmpty || cfg.allowlist.contains host

/-- One `{title, url}` row parsed from a provider response; `url = none`
models a row whose URL fails `new URL(r.url)`. -/
structure ProviderItem where
  title : String
  url : Option Url
deriving Repr, DecidableEq

structure SearchResult where
  title : String
  url : Url
deriving Repr, DecidableEq

/-- Source clamp `Math.min(Math.max(maxResults || WEB_MAX_RESULTS, 1), 25)`
(`0` is falsy in JS and falls back to the configured default). -/
def clampMaxResults (maxResults : Option Nat) (webMaxResults : Nat) : Nat :=
  let base :=
    match maxResults with
    | some m => if m = 0 then webMaxResults else m
    | none => webMaxResults
  min (max base 1) 25

/-- Inner item loop of the web `search` tool: filter by allow/block lists,
de-duplicate on `origin + pathname`, stop once `n` results are collected. -/
def addItems (cfg : WebConfig) (n : Nat) :
    List ProviderItem → List String × List SearchResult → List String × List SearchResult
  | [], acc => acc
  | it :: rest, (seen, out) =>
    if n ≤ out.length then (seen, out)
    else
      match it.url with
      | none => addItems cfg n rest (seen, out)
      | some u =>
        if isBlockedHost cfg u.host || !isAllowedHost cfg u.host then
          addItems cfg n rest (seen, out)
        else
          let key := dedupKey u
          if seen.contains key then addItems cfg n rest (seen, out)
          else
            addItems cfg n rest (key :: seen,
              out ++ [{ title := if it.title = "" then "Untitled" else it.title, url := u }])

/-- Provider fan-out loop: a provider call either errors (skipped, fall
through to the next provider) or yields parsed items. -/
def searchProvidersLoop (cfg : WebConfig) (n : Nat) :
    List (Except Unit (List ProviderItem)) → List String × List SearchResult →
      List String × List SearchResult
  | [], acc => acc
  | p :: ps, (seen, out) =>
    match p with
    | .error _ => searchProvidersLoop cfg n ps (seen, out)
    | .ok arr =>
      let acc := addItems cfg n arr (seen, out)
      if n ≤ acc.2.length then acc else searchProvidersLoop cfg n ps acc

/-- Source provider registration: fixed order Tavily, SerpAPI, Brave; a
provider is active exactly when its API key is configured (`none` = no key). -/
def activeProviders (tavily serpapi brave : Option (Except Unit (List ProviderItem))) :
    List (Except Unit (List ProviderItem)) :=
  tavily.toList ++ serpapi.toList ++ brave.toList

/-- The web `search` tool body (provider fan-out, filtering, deduplication,
final `out.slice(0, n)`). -/
def webSearch (cfg : WebConfig)
    (tavily serpapi brave : Option (Except Unit (List ProviderItem)))
    (maxResults : Option Nat) (webMaxResults : Nat) : List SearchResult :=
  let n := clampMaxResults maxResults webMaxResults
  (searchProvidersLoop cfg n (activeProviders tavily serpapi brave) ([], [])).2.take n

/-- The filter a result's host must pass. -/
def hostPasses (cfg : WebConfig) (u : Url) : Bool :=
  !isBlockedHost cfg u.host && isAllowedHost cfg u.host

/-- Invariant carried through the search loops. -/
def SearchInv (cfg : WebConfig) (seen : List String) (out : List SearchResult) : Prop :=
  (∀ r ∈ out, hostPasses cfg r.url = true) ∧
  List.Pairwise (fun a b => dedupKey a.url ≠ dedupKey b.url) out ∧
  (∀ r ∈ out, dedupKey r.url ∈ seen)

theorem addItems_inv (cfg : WebConfig) (n : Nat) (items : List ProviderItem)
    (seen : List String) (out : List SearchResult) (h : SearchInv cfg seen out) :
    SearchInv cfg (addItems cfg n items (seen, out)).1 (addItems cfg n items (seen, out)).2 := by
  induction items generalizing seen out with
  | nil => exact h
  | cons it rest ih =>
    obtain ⟨hpass, hpair, hseen⟩ := h
    by_cases hfull : n ≤ out.length
    · simp only [addItems, if_pos hfull]
      exact ⟨hpass, hpair, hseen⟩
    · simp only [addItems, if_neg hfull]
      cases hu : it.url with
      | none => exact ih seen out ⟨hpass, hpair, hseen⟩
      | some u =>
        by_cases hblk : (isBlockedHost cfg u.host || !isAllowedHost cfg u.host) = true
        · simp only [hblk, if_true]
          exact ih seen out ⟨hpass, hpair, hseen⟩
        · simp only [hblk, if_false, Bool.false_eq_true]
          by_cases hdup : seen.contains (dedupKey u) = true
          · simp only [hdup, if_true]
            exact ih seen out ⟨hpass, hpair, hseen⟩
          · simp only [hdup, if_false, Bool.false_eq_true]
            apply ih
            refine ⟨?_, ?_, ?_⟩
            · intro r hr
              rcases List.mem_append.mp hr with hro | hrn
              · exact hpass r hro
              · simp only [List.mem_singleton] at hrn
                subst hrn
                simp only [hostPasses]
                simp only [Bool.or_eq_true, Bool.not_eq_true'] at hblk
                push_neg at hblk
                rcases hblk with ⟨hb1, hb2⟩
                simp [hb1, hb2]
            · rw [List.pairwise_append]
              refine ⟨hpair, List.pairwise_singleton _ _, ?_⟩
              intro a ha b hb
              simp only [List.mem_singleton] at hb
              subst hb
              intro hkey
              exact hdup (List.elem_iff.mpr (hkey ▸ hseen a ha))
            · intro r hr
              rcases List.mem_append.mp hr with hro | hrn
              · exact List.mem_cons_of_mem _ (hseen r hro)
              · simp only [List.mem_singleton] at hrn
                subst hrn
                exact List.mem_cons_self _ _

theorem searchProvidersLoop_inv (cfg : WebConfig) (n : Nat)
    (ps : List (Except Unit (List ProviderItem)))
    (seen : List String) (out : List SearchResult) (h : SearchInv cfg seen out) :
    SearchInv cfg (searchProvidersLoop cfg n ps (seen, out)).1
      (searchProvidersLoop cfg n ps (seen, out)).2 := by
  induction ps generalizing seen out with
  | nil => exact h
  | cons p rest ih =>
    cases p with
    | error e => exact ih seen out h
    | ok arr =>
      simp only [searchProvidersLoop]
      have hinv := addItems_inv cfg n arr seen out h
      by_cases hfull : n ≤ (addItems cfg n arr (seen, out)).2.length
      · simp only [if_pos hfull]
        exact hinv
      · simp only [if_neg hfull]
        have := ih (addItems cfg n arr (seen, out)).1 (addItems cfg n arr (seen, out)).2 hinv
        simpa using this

theorem searchProvidersLoop_all_error (cfg : WebConfig) (n : Nat)
    (ps : List (Except Unit (List ProviderItem)))
    (acc : List String × List SearchResult)
    (h : ∀ p ∈ ps, ∃ e, p = Except.error e) :
    searchProvidersLoop cfg n ps acc = acc := by
  induction ps generalizing acc with
  | nil => rfl
  | cons p rest ih =>
    obtain ⟨e, he⟩ := h p (List.mem_cons_self p rest)
    subst he
    obtain ⟨seen, out⟩ := acc
    exact ih (seen, out) (fun q hq => h q (List.mem_cons_of_mem _ hq))

/-- A concrete provider result URL used to exercise the web search tool. -/
def exampleUrl : Url :=
  { protocol := "https:", host := "example.com", pathname := "/", username := "", password := "" }

/-- C6 counterexample: with the default (empty) allowlist every host passes
the filter, so a returned URL's host need not be a member of the allowlist.
The claim "every returned URL's host is in the allowlist" is false as stated. -/
theorem web_search_allowlist_counterexample :
    webSearch { allowlist := [], blocklist := [] }
        (some (Except.ok [{ title := "Example", url := some exampleUrl }]))
        none none (some 5) 10 =
      [{ title := "Example", url := exampleUrl }] ∧
    ("example.com" ∈ ([] : List String)) = False := by
  constructor
  · rfl
  · simp

/-- C6 (amended): providers run in the fixed order Tavily, SerpAPI, Brave
(only those with a key); every returned URL's host is not in the blocklist
and, when the allowlist is non-empty, is in the allowlist; no two returned
URLs share `(origin, pathname)`; at most `maxResults` (clamped) results are
returned; and if every active provider errors the result is the empty list. -/
theorem web_search_filters_and_dedups (cfg : WebConfig)
    (tavily serpapi brave : Option (Except Unit (List ProviderItem)))
    (maxResults : Option Nat) (webMaxResults : Nat) :
    (∀ r ∈ webSearch cfg tavily serpapi brave maxResults webMaxResults,
      isBlockedHost cfg r.url.host = false ∧
      (cfg.allowlist ≠ [] → r.url.host ∈ cfg.allowlist)) ∧
    List.Pairwise (fun a b => dedupKey a.url ≠ dedupKey b.url)
      (webSearch cfg tavily serpapi brave maxResults webMaxResults) ∧
    (webSearch cfg tavily serpapi brave maxResults webMaxResults).length ≤
      clampMaxResults maxResults webMaxResults ∧
    ((∀ p ∈ activeProviders tavily serpapi brave, ∃ e, p = Except.error e) →
      webSearch cfg tavily serpapi brave maxResults webMaxResults = []) := by
  have hinv := searchProvidersLoop_inv cfg (clampMaxResults maxResults webMaxResults)
    (activeProviders tavily serpapi brave) [] []
    ⟨by intro r hr; simp at hr, List.Pairwise.nil, by intro r hr; simp at hr⟩
  obtain ⟨hpass, hpair, _⟩ := hinv
  refine ⟨?_, ?_, ?_, ?_⟩
  · intro r hr
    have hmem : r ∈ (searchProvidersLoop cfg (clampMaxResults maxResults webMaxResults)
        (activeProviders tavily serpapi brave) ([], [])).2 :=
      List.mem_of_mem_take hr
    have hp := hpass r hmem
    simp only [hostPasses, Bool.and_eq_true, Bool.not_eq_true'] at hp
    refine ⟨hp.1, fun hne => ?_⟩
    have := hp.2
    simp only [isAllowedHost, Bool.or_eq_true, List.isEmpty_iff] at this
    rcases this with hemp | hcon
    · exact absurd hemp hne
    · exact List.elem_iff.mp hcon
  · exact List.Pairwise.sublist (List.take_sublist _ _) hpair
  · exact List.length_take_le _ _
  · intro hall
    show List.take (clampMaxResults maxResults webMaxResults)
      (searchProvidersLoop cfg (clampMaxResults maxResults webMaxResults)
        (activeProviders tavily serpapi brave) ([], [])).2 = []
    rw [searchProvidersLoop_all_error cfg _ _ ([], []) hall]
    simp

/-- Closed witness for `web_search_filters_and_dedups`. -/
theorem web_search_filters_and_dedups_witness :
    (∀ r ∈ webSearch { allowlist := ["example.com"], blocklist := [] }
        (some (Except.ok [{ title := "Example", url := some exampleUrl }]))
        none none (some 5) 10,
      (["example.com"] : List String) ≠ [] → r.url.host ∈ (["example.com"] : List String)) ∧
    webSearch { allowlist := [], blocklist := [] } (some (Except.error ()))
      (some (Except.error ())) none (some 5) 10 = [] := by
  constructor
  · intro r hr
    exact ((web_search_filters_and_dedups { allowlist := ["example.com"], blocklist := [] }
      (some (Except.ok [{ title := "Example", url := some exampleUrl }]))
      none none (some 5) 10).1 r hr).2
  · exact (web_search_filters_and_dedups { allowlist := [], blocklist := [] }
      (some (Except.error ())) (some (Except.error ())) none (some 5) 10).2.2.2
      (by intro p hp; simp [activeProviders] at hp; rcases hp with rfl; exact ⟨(), rfl⟩)

/-! ## SSRF IP classification (source `ipToInt`, `inRange`,
`isPrivateOrReserved`). -/

/-- JS `"...".split(sep)` on a single-character separator. -/
def splitOnCharAux (sep : Char) : List Char → List Char → List (List Char)
  | [], acc => [acc.reverse]
  | c :: rest, acc =>
    if c = sep then acc.reverse :: splitOnCharAux sep rest []
    else splitOnCharAux sep rest (c :: acc)

def splitOnChar (sep : Char) (s : String) : List String :=
  (splitOnCharAux sep s.toList []).map String.mk

/-- ASCII lower-casing, the fragment of JS `toLowerCase()` exercised by the
repository's patterns (Hebrew has no case). -/
def lowerCh (c : Char) : Char :=
  if 'A' ≤ c && c ≤ 'Z' then Char.ofNat (c.toNat + 32) else c

def strLower (s : String) : String := String.mk (s.toList.map lowerCh)

def charIsDigit (c : Char) : Bool := '0' ≤ c && c ≤ '9'

def charIsHex (c : Char) : Bool :=
  charIsDigit c || ('a' ≤ c && c ≤ 'f') || ('A' ≤ c && c ≤ 'F')

/-- JS `parseInt(p, 10)` on all-digit octet strings. -/
def parseDecOr0 (s : String) : Nat :=
  s.toList.foldl (fun acc c => acc * 10 + (c.toNat - 48)) 0

/-- Source `ipToInt`: 32-bit big-endian value of a dotted quad (`0` when the
string is not four dot-separated parts).  The JS shift/or/`>>> 0` pipeline
equals this sum modulo `2^32` on valid octets. -/
def ipToInt (ip : String) : Nat :=
  match splitOnChar '.' ip with
  | [a, b, c, d] =>
    (parseDecOr0 a * 2 ^ 24 + parseDecOr0 b * 2 ^ 16 +
      parseDecOr0 c * 2 ^ 8 + parseDecOr0 d) % 2 ^ 32
  | _ => 0

/-- Source `inRange(n, start, maskBits)`: CIDR prefix match via
`(~0 << (32 - maskBits)) >>> 0`. -/
def inRange (n : Nat) (start : String) (maskBits : Nat) : Bool :=
  let s := ipToInt start
  let mask := if maskBits = 0 then 0 else 2 ^ 32 - 2 ^ (32 - maskBits)
  (n &&& mask) == (s &&& mask)

/-- `net.isIP(x) === 4`: a strict dotted-quad (four decimal octets 0..255,
no leading zeros). -/
def isIPv4 (ip : String) : Bool :=
  let parts := splitOnChar '.' ip
  parts.length = 4 && parts.all fun p =>
    0 < p.toList.length && p.toList.length ≤ 3 && p.toList.all charIsDigit &&
    (p = "0" || !strStarts p "0") && parseDecOr0 p ≤ 255

/-- Approximation of `net.isIP(x) === 6` adequate for the addresses these
checks inspect: colon-separated hex groups. -/
def looksIPv6 (ip : String) : Bool :=
  ip.toList.any (· = ':') && ip.toList.all fun c => charIsHex c || c = ':'

/-- Source `isPrivateOrReserved`: RFC1918, loopback, link-local and
`0.0.0.0/8` for IPv4; loopback, link-local and ULA for IPv6; anything that is
not an IP literal (e.g. the empty string from a failed DNS lookup) is treated
as unsafe. -/
def isPrivateOrReserved (ip : String) : Bool :=
  if isIPv4 ip then
    let n := ipToInt ip
    inRange n "10.0.0.0" 8 || inRange n "172.16.0.0" 12 || inRange n "192.168.0.0" 16 ||
      inRange n "127.0.0.0" 8 || inRange n "169.254.0.0" 16 || inRange n "0.0.0.0" 8
  else if looksIPv6 ip then
    let low := strLower ip
    strStarts low "::1" || strStarts low "fe80:" || strStarts low "fc" || strStarts low "fd"
  else true

/-! ## Safe web fetcher (source web `fetch` tool). -/

/-- The slice of an HTTP response the safety pipeline inspects.  `location`
models `new URL(r.headers.get('location'), current)`, i.e. the resolved
redirect target. -/
structure HttpResp where
  status : Nat
  location : Option Url
deriving Repr, DecidableEq

/-- node-fetch `resp.ok`. -/
def respOk (r : HttpResp) : Bool := 200 ≤ r.status && r.status < 300

/-- Environment of one web `fetch` invocation: host filter configuration and
the network oracles (DNS answer per hostname, robots verdict per URL, HTTP
response per URL, fetch cache membership per URL). -/
structure WebFetchEnv where
  cfg : WebConfig
  dnsLookup : String → Option String
  robotsAllowed : Url → Bool
  httpGet : Url → HttpResp
  cachedFor : Url → Option Unit

/-- Terminal outcomes of the web `fetch` pipeline.  `privateBlocked` is the
rejection the source intends for private/loopback targets ("Blocked: private
or loopback address"). -/
inductive FetchOutcome where
  | invalidCredentials
  | protocolNotAllowed
  | hostNotAllowed
  | cacheHit
  | privateBlocked
  | robotsBlocked
  | hostNotAllowedRedirect
  | insecureRedirect
  | tooManyRedirects
  | cached304
  | httpError (status : Nat)
  | success (finalUrl : Url) (status : Nat)
deriving Repr, DecidableEq

/-- Source manual-redirect loop of the web `fetch` tool.  `fuel` starts at 6
so that the sixth taken redirect trips the `redirectCount > 5` guard.

The SSRF check of the source —
`if (current.hostname === 'localhost' || isPrivateOrReserved(ip)) throw new
Error('Blocked: private or loopback address')` — sits inside a
`try { ... } catch {}` whose empty catch swallows the thrown rejection, so
the `ssrfHit` value computed below is discarded exactly as the source
discards the exception, and control falls through to the robots check and
the network request.  -/
def fetchLoop (env : WebFetchEnv) (initialScheme : String) :
    Nat → Url → List String → FetchOutcome
  | fuel, current, seen =>
    let ip := (env.dnsLookup current.host).getD ""
    let ssrfHit := current.host = "localhost" || isPrivateOrReserved ip
    let _ := ssrfHit
    if !env.robotsAllowed current then .robotsBlocked
    else
      let r := env.httpGet current
      if r.status = 301 || r.status = 302 || r.status = 303 ||
          r.status = 307 || r.status = 308 then
        match r.location with
        | none => if respOk r then .success current r.status else .httpError r.status
        | some nextUrl =>
          if isBlockedHost env.cfg nextUrl.host || !isAllowedHost env.cfg nextUrl.host then
            .hostNotAllowedRedirect
          else if initialScheme = "https:" && !(nextUrl.protocol = "https:") then
            .insecureRedirect
          else if seen.contains (urlToString nextUrl) then
            (if respOk r then .success current r.status else .httpError r.status)
          else
            match fuel with
            | 0 => .tooManyRedirects
            | 1 => .tooManyRedirects
            | f + 2 =>
              fetchLoop env initialScheme (f + 1) nextUrl (urlToString nextUrl :: seen)
      else if r.status = 304 && (env.cachedFor current).isSome then .cached304
      else if respOk r then .success current r.status else .httpError r.status

/-- Source web `fetch` pre-flight followed by the redirect loop: credential
check, scheme check, allow/block host check, raw-URL cache check, then
`fetchLoop` starting from the requested URL. -/
def webFetch (env : WebFetchEnv) (u0 : Url) : FetchOutcome :=
  if !(u0.username = "") || !(u0.password = "") then .invalidCredentials
  else if !(u0.protocol = "http:" || u0.protocol = "https:") then .protocolNotAllowed
  else if isBlockedHost env.cfg u0.host || !isAllowedHost env.cfg u0.host then .hostNotAllowed
  else if (env.cachedFor u0).isSome then .cacheHit
  else fetchLoop env u0.protocol 6 u0 []

/-- Environment of the spec's end-to-end scenario `fetch{id:"http://127.0.0.1/"}`:
DNS resolves `127.0.0.1` to itself, robots allow everything (`ROBOTS_OBEY`
defaults to false), the host answers 200, the cache is empty, and both host
lists are empty (their defaults). -/
def env127 : WebFetchEnv :=
  { cfg := { allowlist := [], blocklist := [] },
    dnsLookup := fun _ => some "127.0.0.1",
    robotsAllowed := fun _ => true,
    httpGet := fun _ => { status := 200, location := none },
    cachedFor := fun _ => none }

def url127 : Url :=
  { protocol := "http:", host := "127.0.0.1", pathname := "/", username := "", password := "" }

/-- C1: the fetch of `http://127.0.0.1/` is NOT rejected.  The resolved
address is classified private/loopback (first two conjuncts), yet the fetch
pipeline returns the page (third conjunct) instead of failing with
"Blocked: private or loopback address", because the source throws that
rejection inside a `try` whose empty `catch {}` swallows it. -/
theorem web_fetch_private_loopback_not_rejected :
    isPrivateOrReserved "127.0.0.1" = true ∧
    (url127.host = "localhost" ||
      isPrivateOrReserved ((env127.dnsLookup url127.host).getD "")) = true ∧
    webFetch env127 url127 = FetchOutcome.success url127 200 ∧
    webFetch env127 url127 ≠ FetchOutcome.privateBlocked := by
  refine ⟨by decide, by decide, by decide, by decide⟩

/-! ## Reference resolver (source `SUGYA_ALIASES` and the seed-ref
resolution inlined in `sugya_explorer`). -/

/-- Match `parts` at the head of `cs`, with arbitrary whitespace (`\s*`)
between consecutive parts.  Every alias part begins with a non-space
character, so the greedy whitespace skip is exact. -/
def seqWsAt : List (List Char) → List Char → Bool
  | [], _ => true
  | p :: ps, cs => leadsList p cs && seqWsAt ps ((cs.drop p.length).dropWhile isJsWs)

/-- Regex test of `p₁\s*p₂\s*…` anywhere in the string. -/
def seqWsSearch (parts : List String) : List Char → Bool
  | [] => seqWsAt (parts.map String.toList) []
  | cs@(_ :: rest) => seqWsAt (parts.map String.toList) cs || seqWsSearch parts rest

/-- After a first-group match, `.*?` (non-dotall JS `.`: no newlines) up to
one of the second-group alternatives. -/
def dotStarThen (bs : List String) : List Char → Bool
  | [] => bs.any fun b => leadsList b.toList []
  | c :: rest =>
    (bs.any fun b => leadsList b.toList (c :: rest)) ||
      (!(c = '\n') && !(c = '\r') && dotStarThen bs rest)

/-- Regex test of `(a₁|…).*?(b₁|…)` anywhere in the string. -/
def altThenAlt (as bs : List String) : List Char → Bool
  | [] => false
  | cs@(_ :: rest) =>
    (as.any fun a => leadsList a.toList cs && dotStarThen bs (cs.drop a.toList.length)) ||
      altThenAlt as bs rest

/-- Source `SUGYA_ALIASES`: the fixed `{pattern, ref}` table.  Each pattern
is a case-insensitive regex applied to the lowercased normalized query, so
the literals below are lowercase. -/
def SUGYA_ALIASES : List ((String → Bool) × String) :=
  [ (fun s => altThenAlt ["shabbat", "sabbath"] ["candle", "light"] s.toList,
      "Shulchan Arukh, Orach Chayim 263"),
    (fun s => altThenAlt ["hanukkah", "chanukah", "חנוכה"] ["light", "candle"] s.toList,
      "Shulchan Arukh, Orach Chayim 671"),
    (fun s => seqWsSearch ["lo", "bashamayim", "hi"] s.toList ||
        seqWsSearch ["לא", "בשמים", "היא"] s.toList,
      "Bava Metzia 59b"),
    (fun s => seqWsSearch ["pikuach", "nefesh"] s.toList ||
        seqWsSearch ["saving", "a", "life"] s.toList ||
        seqWsSearch ["פיקוח", "נפש"] s.toList,
      "Yoma 85b") ]

/-- Guard of the exact-lookup fast path:
`(/:/.test(q) || /\d/.test(q) || hasHebrew(q)) && q.length <= 120`. -/
def resolveGuard (q : String) : Bool :=
  (hasColon q || hasDigit q || hasHebrew q) && q.toList.length ≤ 120

/-- First matching alias ref, if any. -/
def aliasLookup (lower : String) : Option String :=
  (SUGYA_ALIASES.find? fun a => a.1 lower).map (·.2)

/-- Seed-ref resolution of `sugya_explorer` (the spec's reference resolver,
steps 1-2): `exact` is the `tryResolveExactRef` oracle; `none` models an
upstream failure or a null result, `some ""` a falsy empty ref.  The alias
table is scanned whenever the seed ref still equals the normalized query
(`if (seedRef === normRef)`), which includes the case where the exact lookup
succeeded but returned the query itself. -/
def resolveSeedRef (exact : String → Option String) (query : String) : String :=
  let normRef := normalizeRef query
  let seedRef :=
    if resolveGuard normRef then
      match exact normRef with
      | some r => if r = "" then normRef else r
      | none => normRef
    else normRef
  if seedRef = normRef then
    match aliasLookup (strLower normRef) with
    | some r => r
    | none => seedRef
  else seedRef

/-- C4 counterexample: when the exact lookup succeeds and returns exactly the
normalized query (the common case for a well-formed ref), the alias table is
still scanned and can override the returned ref, so "on success its ref (or
sectionRef) is returned" is false as stated. -/
theorem resolver_exact_success_overridden :
    resolveGuard (normalizeRef "pikuach nefesh 85") = true ∧
    (fun s => some s) (normalizeRef "pikuach nefesh 85") =
      some (normalizeRef "pikuach nefesh 85") ∧
    resolveSeedRef (fun s => some s) "pikuach nefesh 85" = "Yoma 85b" ∧
    ¬ resolveSeedRef (fun s => some s) "pikuach nefesh 85" =
        normalizeRef "pikuach nefesh 85" := by
  refine ⟨by decide, rfl, by decide, by decide⟩

/-- C4 (amended): with guard satisfied, an exact lookup returning a non-empty
ref different from the normalized query is returned as-is; in every other
case (guard failed, lookup failed or empty, or lookup returned the normalized
query itself) the alias table is scanned and the first match returned, else
the normalized query is returned unchanged (the empty result); and the alias
table maps its four patterns to exactly the four refs the spec lists. -/
theorem resolver_characterization (exact : String → Option String) (q : String) :
    (∀ r, resolveGuard (normalizeRef q) = true → exact (normalizeRef q) = some r →
      r ≠ "" → r ≠ normalizeRef q → resolveSeedRef exact q = r) ∧
    ((resolveGuard (normalizeRef q) = false ∨ exact (normalizeRef q) = none ∨
        exact (normalizeRef q) = some "" ∨
        exact (normalizeRef q) = some (normalizeRef q)) →
      resolveSeedRef exact q =
        match aliasLookup (strLower (normalizeRef q)) with
        | some r => r
        | none => normalizeRef q) ∧
    SUGYA_ALIASES.map (·.2) =
      ["Shulchan Arukh, Orach Chayim 263", "Shulchan Arukh, Orach Chayim 671",
        "Bava Metzia 59b", "Yoma 85b"] := by
  refine ⟨?_, ?_, by decide⟩
  · intro r hg he hne hneq
    simp [resolveSeedRef, hg, he, hne, hneq]
  · intro hcase
    rcases hcase with hg | he | he | he
    · simp [resolveSeedRef, hg]
    · simp [resolveSeedRef, he]
    · simp [resolveSeedRef, he]
    · simp [resolveSeedRef, he]

/-- Closed witness for `resolver_characterization`. -/
theorem resolver_characterization_witness :
    resolveSeedRef (fun _ => some "Shabbat 21a:5") "Shabbat 21a" = "Shabbat 21a:5" ∧
    resolveSeedRef (fun _ => none) "shabbat candles" = "Shulchan Arukh, Orach Chayim 263" := by
  constructor
  · exact (resolver_characterization (fun _ => some "Shabbat 21a:5") "Shabbat 21a").1
      "Shabbat 21a:5" (by decide) rfl (by decide) (by decide)
  · have h := (resolver_characterization (fun _ => none) "shabbat candles").2.1
      (Or.inr (Or.inl rfl))
    rw [h]
    decide


/-! ## Calendar insights (source `calendar_insights` tool). -/

/-- Percent-encoding of one character (JS `encodeURIComponent`); the
non-ASCII multi-byte UTF-8 case is passed through unencoded, as no claim
inspects such URLs. -/
def hexDigitCh (n : Nat) : Char :=
  if n < 10 then Char.ofNat (48 + n) else Char.ofNat (55 + n)

def encodeComponentChar (c : Char) : List Char :=
  if charIsDigit c || ('a' ≤ c && c ≤ 'z') || ('A' ≤ c && c ≤ 'Z') ||
      c = '-' || c = '_' || c = '.' || c = '!' || c = '~' || c = '*' ||
      c = '\x27' || c = '(' || c = ')' then [c]
  else if c.toNat < 128 then ['%', hexDigitCh (c.toNat / 16), hexDigitCh (c.toNat % 16)]
  else [c]

def encodeURIComponentStr (s : String) : String :=
  String.mk (s.toList.foldr (fun c acc => encodeComponentChar c ++ acc) [])

/-- Source `toSefariaUrlFromRef`: percent-encode the normalized ref with
spaces turned into underscores and append `?lang=bi`. -/
def toSefariaUrlFromRef (ref : String) : String :=
  "https://www.sefaria.org/" ++
    encodeURIComponentStr
      (String.mk ((normalizeRef ref).toList.map fun c => if c = ' ' then '_' else c)) ++
    "?lang=bi"

/-- One upstream calendar item as `calendar_insights` reads it.  The JS
field coalescing (`item?.title?.en || item?.title || ''`, likewise for
`displayValue` and `category`) is pre-applied into plain strings; `ref` and
`url` are the optional raw fields. -/
structure CalItem where
  titleEn : String
  category : String
  displayValueEn : String
  ref : Option String
  url : Option String
deriving Repr, DecidableEq

/-- Source `classify` in `calendar_insights`: substring dispatch over the
lowercased English title and category. -/
def classifyCalItem (item : CalItem) : String :=
  let titleEn := strLower item.titleEn
  let cat := strLower item.category
  if strContains titleEn "parashat hashavua" then "parsha"
  else if strStarts titleEn "haftarah" then "haftarah"
  else if strContains titleEn "rosh chodesh" || strContains titleEn "rosh hodesh" then
    "rosh_chodesh"
  else if strContains titleEn "fast" || strContains titleEn "tzom" then "fast"
  else if strContains titleEn "shabbat" then "shabbat"
  else if strContains cat "holiday" ||
      (["rosh hashanah", "yom kippur", "sukkot", "pesach", "passover", "shavuot", "purim",
        "chanukah", "hanukkah", "simchat torah", "shemini atzeret"].any
        fun h => strContains titleEn h) then "chag"
  else if strContains titleEn "daf yomi" || strContains titleEn "yomi" then "daf"
  else "other"

/-- Source `halachaChecklistFor`. -/
def halachaChecklistFor (type : String) : Option (List String) :=
  if type = "shabbat" then
    some ["Candle lighting", "Eruv check", "Food prep before Shabbat", "Havdalah"]
  else if type = "fast" then
    some ["Start/End times", "Health exemptions", "Hydration plan"]
  else if type = "chag" then
    some ["Kiddush/Challah", "Eruv Tavshilin (if Fri chag → Shabbat)", "Hallel where applicable"]
  else if type = "rosh_chodesh" then
    some ["Ya’aleh V’Yavo", "Hallel (partial/full as applicable)"]
  else none

structure RecSource where
  title : String
  ref : Option String
  url : Option String
deriving Repr, DecidableEq

structure AlertItem where
  type : String
  title : String
  ref : Option String
  url : Option String
  recommendedSources : Option (List RecSource)
  halachaChecklist : Option (List String)
deriving Repr, DecidableEq

/-- JS truthiness of an optional string (`undefined` and `""` are falsy). -/
def optTruthy : Option String → Bool
  | some s => !(s = "")
  | none => false

/-- Build one alert record from a classified calendar item (loop body of
`calendar_insights`). -/
def calAlertItem (includeLearningTracks : Bool) (item : CalItem) (type : String) :
    AlertItem :=
  let title :=
    if item.titleEn = "" then
      (if item.displayValueEn = "" then "Calendar" else item.displayValueEn)
    else item.titleEn
  let ref := item.ref.map normalizeRef
  let url := item.url.map fun u =>
    toSefariaUrlFromRef (String.mk (u.toList.map fun c => if c = '_' then ' ' else c))
  let rs1 : List RecSource :=
    if type = "parsha" then [{ title := title, ref := ref, url := url }] else []
  let rs2 : List RecSource :=
    if includeLearningTracks &&
        (type = "daf" || strContains (strLower item.titleEn) "yomi") then
      [{ title := item.displayValueEn,
         ref := match item.ref with | some r => some r | none => item.url,
         url := match url with | some u => some u | none => item.url.map toSefariaUrlFromRef }]
    else []
  let rs := rs1 ++ rs2
  { type := type
    title := title
    ref := ref
    url := url
    recommendedSources :=
      if !rs.isEmpty then
        some (rs.filter fun e => !(e.title = "") && (optTruthy e.ref || optTruthy e.url))
      else none
    halachaChecklist := halachaChecklistFor type }

/-- One day's item loop of `calendar_insights`: classify, apply the
`interests` filter (`type.includes(tag.toLowerCase())`), build records. -/
def dayItems (interests : List String) (includeLearningTracks : Bool)
    (items : List CalItem) : List AlertItem :=
  items.filterMap fun item =>
    let type := classifyCalItem item
    if !interests.isEmpty &&
        !(interests.any fun tag => strContains type (strLower tag)) then none
    else some (calAlertItem includeLearningTracks item type)

structure DayAlert where
  date : Nat
  items : List AlertItem
deriving Repr, DecidableEq

structure CalendarPayload where
  startDate : Nat
  endDate : Nat
  alerts : List DayAlert
deriving Repr, DecidableEq

/-- Source `calendar_insights` day fan-out: for `i` in `0..6`, one UTC day
per iteration (`d.setUTCDate(d.getUTCDate() + i)` from the UTC midnight of
`startDate`).  Days are modelled as day numbers; `cal` is the upstream
`calendars` oracle per day (the `diaspora`/`timezone` query options are part
of the oracle). -/
def calendarInsights (cal : Nat → List CalItem) (startDay : Nat)
    (includeLearningTracks : Bool) (interests : List String) : CalendarPayload :=
  let alerts := (List.range 7).map fun i =>
    ({ date := startDay + i,
       items := dayItems interests includeLearningTracks (cal (startDay + i)) } : DayAlert)
  { startDate := startDay, endDate := startDay + 6, alerts := alerts }

theorem classifyCalItem_mem (item : CalItem) :
    classifyCalItem item ∈
      ["parsha", "haftarah", "rosh_chodesh", "fast", "shabbat", "chag", "daf", "other"] := by
  unfold classifyCalItem
  dsimp only
  split_ifs <;> simp

/-- C7: `calendar_insights(startDate = D)` returns alert entries for exactly
the 7 UTC days `D, D+1, …, D+6` in order; every item is classified into one
of the eight fixed tags; and with a non-empty `interests` list only items
whose classification contains a listed tag (lowercased) are retained. -/
theorem calendar_insights_seven_days (cal : Nat → List CalItem) (startDay : Nat)
    (includeLearningTracks : Bool) (interests : List String) :
    ((calendarInsights cal startDay includeLearningTracks interests).alerts.map (·.date)) =
      [startDay, startDay + 1, startDay + 2, startDay + 3, startDay + 4, startDay + 5,
        startDay + 6] ∧
    (∀ a ∈ (calendarInsights cal startDay includeLearningTracks interests).alerts,
      ∀ it ∈ a.items,
        it.type ∈ ["parsha", "haftarah", "rosh_chodesh", "fast", "shabbat", "chag", "daf",
          "other"]) ∧
    (interests ≠ [] →
      ∀ a ∈ (calendarInsights cal startDay includeLearningTracks interests).alerts,
        ∀ it ∈ a.items,
          (interests.any fun tag => strContains it.type (strLower tag)) = true) := by
  have hmem : ∀ a ∈ (calendarInsights cal startDay includeLearningTracks interests).alerts,
      ∀ it ∈ a.items, ∃ item, it = calAlertItem includeLearningTracks item
        (classifyCalItem item) ∧
        (interests = [] ∨
          (interests.any fun tag =>
            strContains (classifyCalItem item) (strLower tag)) = true) := by
    intro a ha it hit
    simp only [calendarInsights, List.mem_map] at ha
    obtain ⟨i, _, hai⟩ := ha
    subst hai
    simp only [dayItems, List.mem_filterMap] at hit
    obtain ⟨item, _, hsome⟩ := hit
    by_cases hskip : (!interests.isEmpty &&
        !(interests.any fun tag => strContains (classifyCalItem item) (strLower tag))) = true
    · rw [if_pos hskip] at hsome
      exact absurd hsome (by simp)
    · rw [if_neg hskip] at hsome
      simp only [Option.some.injEq] at hsome
      refine ⟨item, hsome.symm, ?_⟩
      simp only [Bool.and_eq_true, Bool.not_eq_true', not_and] at hskip
      by_cases hne : interests.isEmpty
      · exact Or.inl (List.isEmpty_iff.mp hne)
      · right
        have := hskip (by simp [hne])
        simpa using this
  refine ⟨?_, ?_, ?_⟩
  · have h7 : List.range 7 = [0, 1, 2, 3, 4, 5, 6] := rfl
    simp [calendarInsights, h7]
  · intro a ha it hit
    obtain ⟨item, hitem, _⟩ := hmem a ha it hit
    rw [hitem]
    exact classifyCalItem_mem item
  · intro hne a ha it hit
    obtain ⟨item, hitem, hfilter⟩ := hmem a ha it hit
    rcases hfilter with hemp | hany
    · exact absurd hemp hne
    · rw [hitem]
      exact hany

/-- A concrete calendar item used to exercise `calendar_insights`. -/
def dafYomiItem : CalItem :=
  { titleEn := "Daf Yomi", category := "", displayValueEn := "Sanhedrin 5",
    ref := some "Sanhedrin 5", url := none }

/-- Closed witness for `calendar_insights_seven_days`. -/
theorem calendar_insights_seven_days_witness :
    (∀ a ∈ (calendarInsights (fun _ => [dafYomiItem]) 3 true ["daf"]).alerts,
      ∀ it ∈ a.items,
        ((["daf"] : List String).any fun tag => strContains it.type (strLower tag)) = true) ∧
    ((calendarInsights (fun _ => [dafYomiItem]) 3 true ["daf"]).alerts.map (·.date)) =
      [3, 4, 5, 6, 7, 8, 9] :=
  ⟨(calendar_insights_seven_days (fun _ => [dafYomiItem]) 3 true ["daf"]).2.2 (by decide),
   (calendar_insights_seven_days (fun _ => [dafYomiItem]) 3 true ["daf"]).1⟩

/-! ## Chat UI server (source `chat-ui/server.js`): the `/chat` route and
`listMcpTools`. -/

/-- The slice of JS values relevant to the `/chat` body checks. -/
inductive JsVal where
  | vstr (s : String)
  | vnum (n : Int)
  | vbool (b : Bool)
  | vnull
  | vobj
  | varr
deriving Repr, DecidableEq

/-- JS truthiness (`!message`). -/
def jsTruthy : JsVal → Bool
  | .vstr s => !(s = "")
  | .vnum n => !(n = 0)
  | .vbool b => b
  | .vnull => false
  | .vobj => true
  | .varr => true

/-- The `/chat` request body fields the handler's control flow reads
(`model` and `commentators` only decorate the dispatched arguments and do not
affect which branch runs, so they are elided). -/
structure ChatRequest where
  message : Option JsVal
  mode : Option String
deriving Repr, DecidableEq

/-- An externally observable action of the `/chat` handler: spawning a chain
subprocess (`runChain`) or calling an MCP tool (`callMcpTool`). -/
inductive ChatEffect where
  | chain (module : String)
  | mcpTool (name : String)
deriving Repr, DecidableEq

structure ChatResponse where
  status : Nat
  error : Option String
  effects : List ChatEffect
deriving Repr, DecidableEq

/-- Source regex `(help me learn|learn|study|chavruta|teach me)` tested on
the lowercased message: an alternation of literals, i.e. any-substring. -/
def educationalTest (lower : String) : Bool :=
  ["help me learn", "learn", "study", "chavruta", "teach me"].any fun p => strContains lower p

/-- Source `multipart`: more than one `?`, or a comma, or `" and "`
(tested on the raw message). -/
def multipartTest (message : String) : Bool :=
  decide (1 < countChar message '?') || strContains message "," ||
    strContains message " and "

/-- Mode default of the `/chat` handler when the request supplies no mode. -/
def heuristicMode (message : String) : String :=
  if educationalTest (strLower message) || multipartTest message then "guided_chavruta"
  else "auto_explain"

/-- Source `POST /chat` handler: message validation, mode heuristic, and
dispatch to the guided-chavruta chain, the `insight_layers` MCP tool, or the
auto-explain chain.  Dispatch outcomes are modelled as effect lists; the 400
rejection performs no effect. -/
def chatHandler (req : ChatRequest) : ChatResponse :=
  let bad : ChatResponse := { status := 400, error := some "Message is required.", effects := [] }
  match req.message with
  | none => bad
  | some v =>
    if !jsTruthy v then bad
    else
      match v with
      | .vstr s =>
        if jsTrim s = "" then bad
        else
          let mode :=
            match req.mode with
            | some m => if m = "" then heuristicMode s else m
            | none => heuristicMode s
          if mode = "guided_chavruta" then
            { status := 200, error := none, effects := [.chain "chains.guided_chavruta"] }
          else if mode = "insight_layers" then
            { status := 200, error := none, effects := [.mcpTool "insight_layers"] }
          else
            { status := 200, error := none, effects := [.chain "chains.auto_explain"] }
      | _ => bad

/-- C8: a `/chat` request whose `message` is missing, not a string, or
empty/whitespace-only is answered with status 400 and body
`{"error": "Message is required."}`, and no chain subprocess and no MCP tool
is invoked. -/
theorem chat_rejects_invalid_message (req : ChatRequest)
    (h : req.message = none ∨
      (∃ v, req.message = some v ∧ ∀ s, v ≠ JsVal.vstr s) ∨
      (∃ s, req.message = some (JsVal.vstr s) ∧ jsTrim s = "")) :
    chatHandler req = { status := 400, error := some "Message is required.", effects := [] } := by
  rcases h with hnone | ⟨v, hv, hns⟩ | ⟨s, hs, htrim⟩
  · simp [chatHandler, hnone]
  · rw [chatHandler, hv]
    cases v with
    | vstr s => exact absurd rfl (hns s)
    | vnum n => by_cases hn : n = 0 <;> simp [jsTruthy, hn]
    | vbool b => cases b <;> simp [jsTruthy]
    | vnull => simp [jsTruthy]
    | vobj => simp [jsTruthy]
    | varr => simp [jsTruthy]
  · rw [chatHandler, hs]
    by_cases hemp : s = ""
    · simp [jsTruthy, hemp]
    · simp [jsTruthy, hemp, htrim]

/-- Closed witness for `chat_rejects_invalid_message`. -/
theorem chat_rejects_invalid_message_witness :
    chatHandler { message := some (JsVal.vstr "   "), mode := none } =
      { status := 400, error := some "Message is required.", effects := [] } :=
  chat_rejects_invalid_message { message := some (JsVal.vstr "   "), mode := none }
    (Or.inr (Or.inr ⟨"   ", rfl, by decide⟩))

/-- C9: with no `mode` supplied and a valid message, the handler runs the
guided-chavruta chain exactly when the lowercased message contains one of
"help me learn", "learn", "study", "chavruta", "teach me", or the message
has more than one `?`, or contains a comma, or contains `" and "`; in every
other case it runs the auto-explain chain. -/
theorem chat_mode_heuristic (s : String) (h : jsTrim s ≠ "") :
    ((chatHandler { message := some (JsVal.vstr s), mode := none }).effects =
        [ChatEffect.chain "chains.guided_chavruta"] ↔
      ((["help me learn", "learn", "study", "chavruta", "teach me"].any fun p =>
          strContains (strLower s) p) = true ∨
        1 < countChar s '?' ∨ strContains s "," = true ∨
        strContains s " and " = true)) ∧
    (¬((["help me learn", "learn", "study", "chavruta", "teach me"].any fun p =>
          strContains (strLower s) p) = true ∨
        1 < countChar s '?' ∨ strContains s "," = true ∨
        strContains s " and " = true) →
      (chatHandler { message := some (JsVal.vstr s), mode := none }).effects =
        [ChatEffect.chain "chains.auto_explain"]) := by
  have hs : ¬(s = "") := by
    intro hs0
    exact h (by rw [hs0]; rfl)
  have hcond : (educationalTest (strLower s) || multipartTest s) = true ↔
      ((["help me learn", "learn", "study", "chavruta", "teach me"].any fun p =>
          strContains (strLower s) p) = true ∨
        1 < countChar s '?' ∨ strContains s "," = true ∨
        strContains s " and " = true) := by
    simp [educationalTest, multipartTest, Bool.or_eq_true, or_assoc]
  by_cases hc : (educationalTest (strLower s) || multipartTest s) = true
  · constructor
    · rw [hcond.symm]
      simp [chatHandler, jsTruthy, hs, h, heuristicMode, hc]
    · intro hnot
      exact absurd (hcond.mp hc) hnot
  · constructor
    · constructor
      · intro heff
        have : (chatHandler { message := some (JsVal.vstr s), mode := none }).effects =
            [ChatEffect.chain "chains.auto_explain"] := by
          simp [chatHandler, jsTruthy, hs, h, heuristicMode, hc]
        rw [this] at heff
        simp at heff
      · intro hd
        exact absurd (hcond.mpr hd) hc
    · intro _
      simp [chatHandler, jsTruthy, hs, h, heuristicMode, hc]

/-- Closed witness for `chat_mode_heuristic`. -/
theorem chat_mode_heuristic_witness :
    ((chatHandler { message := some (JsVal.vstr "help me learn Daf Yomi"), mode := none }).effects =
      [ChatEffect.chain "chains.guided_chavruta"]) ∧
    ((chatHandler { message := some (JsVal.vstr "What is teshuvah?"), mode := none }).effects =
      [ChatEffect.chain "chains.auto_explain"]) :=
  ⟨(chat_mode_heuristic "help me learn Daf Yomi" (by decide)).1.mpr (by decide),
   (chat_mode_heuristic "What is teshuvah?" (by decide)).2 (by decide)⟩

/-! ## Chat UI `listMcpTools` (60 s cache, error swallowing). -/

structure ToolInfo where
  name : String
  title : String
  description : String
deriving Repr, DecidableEq

/-- A raw `tools/list` row (`tool.title` and `tool.description` optional). -/
structure RawTool where
  name : String
  title : Option String
  description : Option String
deriving Repr, DecidableEq

/-- JS `a || b` on an optional string (empty string is falsy). -/
def jsOrStr (a : Option String) (b : String) : String :=
  match a with
  | some s => if s = "" then b else s
  | none => b

/-- Module-level cache of the chat UI (`cachedTools`, `cachedToolsTimestamp`;
`cachedTools = none` models the initial `null`, and a JS array — even an
empty one — is truthy). -/
structure McpToolsState where
  cachedTools : Option (List ToolInfo)
  cachedToolsTimestamp : Nat
deriving Repr, DecidableEq

/-- Fetch-and-cache path of `listMcpTools`: on success map the rows and
stamp the cache; on failure set the cache to `[]` (timestamp untouched) and
return it.  The third component records whether a `tools/list` request was
issued. -/
def listMcpToolsFetch (st : McpToolsState) (now : Nat)
    (callResult : Except String (Option (List RawTool))) :
    List ToolInfo × McpToolsState × Bool :=
  match callResult with
  | .ok toolsOpt =>
    let raw := toolsOpt.getD []
    let tools := raw.map fun t =>
      { name := t.name, title := jsOrStr t.title t.name,
        description := jsOrStr t.description "" : ToolInfo }
    (tools, { cachedTools := some tools, cachedToolsTimestamp := now }, true)
  | .error _ =>
    ([], { cachedTools := some [], cachedToolsTimestamp := st.cachedToolsTimestamp }, true)

/-- Source `listMcpTools`: serve from the cache when it is populated and
younger than `REFRESH_MS = 60_000`, else fetch; a fetch error is caught and
an empty list returned, never an exception. -/
def listMcpTools (st : McpToolsState) (now : Nat)
    (callResult : Except String (Option (List RawTool))) :
    List ToolInfo × McpToolsState × Bool :=
  match st.cachedTools with
  | some tools =>
    if now - st.cachedToolsTimestamp < 60000 then (tools, st, false)
    else listMcpToolsFetch st now callResult
  | none => listMcpToolsFetch st now callResult

/-- C10: `listMcpTools` never propagates an error (it is total and on a
failed `tools/list` request returns the empty list), and a call within
60 000 ms of the last successful refresh returns the cached list without
issuing a new MCP request. -/
theorem list_mcp_tools_cache_and_errors (st : McpToolsState) (now : Nat)
    (callResult : Except String (Option (List RawTool))) :
    (∀ l, st.cachedTools = some l → now - st.cachedToolsTimestamp < 60000 →
      listMcpTools st now callResult = (l, st, false)) ∧
    (∀ e, callResult = Except.error e →
      (st.cachedTools = none ∨ 60000 ≤ now - st.cachedToolsTimestamp) →
      listMcpTools st now callResult =
        ([], { cachedTools := some [],
               cachedToolsTimestamp := st.cachedToolsTimestamp }, true)) := by
  constructor
  · intro l hl hfresh
    simp [listMcpTools, hl, hfresh]
  · intro e he hstale
    rcases hstale with hnone | hold
    · simp [listMcpTools, hnone, listMcpToolsFetch, he]
    · cases hl : st.cachedTools with
      | none => simp [listMcpTools, hl, listMcpToolsFetch, he]
      | some l =>
        have : ¬(now - st.cachedToolsTimestamp < 60000) := by omega
        simp [listMcpTools, hl, this, listMcpToolsFetch, he]

/-- Closed witness for `list_mcp_tools_cache_and_errors`. -/
theorem list_mcp_tools_cache_and_errors_witness :
    listMcpTools
      { cachedTools := some [{ name := "search", title := "Search", description := "" }],
        cachedToolsTimestamp := 1000 } 50000 (Except.error "MCP HTTP 500") =
      ([{ name := "search", title := "Search", description := "" }],
        { cachedTools := some [{ name := "search", title := "Search", description := "" }],
          cachedToolsTimestamp := 1000 }, false) ∧
    listMcpTools { cachedTools := none, cachedToolsTimestamp := 0 } 50000
        (Except.error "MCP HTTP 500") =
      ([], { cachedTools := some [], cachedToolsTimestamp := 0 }, true) :=
  ⟨(list_mcp_tools_cache_and_errors
      { cachedTools := some [{ name := "search", title := "Search", description := "" }],
        cachedToolsTimestamp := 1000 } 50000 (Except.error "MCP HTTP 500")).1
      [{ name := "search", title := "Search", description := "" }] rfl (by decide),
   (list_mcp_tools_cache_and_errors { cachedTools := none, cachedToolsTimestamp := 0 } 50000
      (Except.error "MCP HTTP 500")).2 "MCP HTTP 500" rfl (Or.inl rfl)⟩
